import Mathlib

/-!
Verification of the espera tick-rate control core against its specification.

The development shallowly embeds the core data model:

* `Rate` (src/control/rate/rate.rs) — one timing cadence.  Durations and
  instants are modelled as integer nanosecond counts (`ℤ`); the `time`
  crate's `Duration`/`Instant` both have nanosecond precision and an
  astronomically large range, so the in-range arithmetic used by the
  library is exact integer arithmetic on nanoseconds.  Where the source
  uses fixed-width machine integers whose overflow behaviour matters
  (the `i32` lag accumulator, the `u64` statistics values), the embedding
  models the width explicitly (clamping / `% 2^64`).
* `RateStats` (src/rate/stats.rs) — ring buffer plus windowed averages.
  The `f64` average fields are modelled as exact rationals (`ℚ`) holding
  the precise value the `f64` stores: the `u64` sum accumulator's
  `as f64` cast is modelled by round-to-nearest, ties to even
  (`roundU64toF64`), and the subsequent division by the power-of-two
  window size 16/128/1024 is exact in binary floating point.
* `Looper` (src/looper.rs) — the Active/Asleep loop state machine with a
  keyed table of rates.  The hash maps are modelled as functions
  `ℕ → Option _`; `Instant::now()` readings and the blocking sleep are
  externalized: each embedded operation takes the clock readings it
  performs as arguments and returns the list of blocking waits it issues.
-/

set_option maxRecDepth 8000

namespace Espera

/-! ## Machine-integer helpers -/

/-- Modulus of the 64-bit unsigned integers used for nanosecond samples. -/
def U64 : ℕ := 2 ^ 64

/-- `i32::MIN` as an integer. -/
def i32min : ℤ := -(2 ^ 31)

/-- `i32::MAX` as an integer. -/
def i32max : ℤ := 2 ^ 31 - 1

/-- Rust `x.clamp(i32::MIN as i128, i32::MAX as i128)` on an exact integer. -/
def clampI32 (x : ℤ) : ℤ := max i32min (min x i32max)

/-- Rust `i32::saturating_add` on in-range operands: clamped exact sum. -/
def satAddI32 (a b : ℤ) : ℤ := clampI32 (a + b)

/-- Rust `as u64` cast of a signed (`i128`) nanosecond count:
two's-complement truncation, i.e. the value modulo `2^64`. -/
def u64_of_int (n : ℤ) : ℕ := (n % (U64 : ℤ)).toNat

/-- Floor of the base-2 logarithm, by fueled halving; exact for inputs
below `2^fuel`, so `log2fuel 64` is exact on the whole `u64` range. -/
def log2fuel : ℕ → ℕ → ℕ
  | 0, _ => 0
  | fuel + 1, n => if n < 2 then 0 else log2fuel fuel (n / 2) + 1

/-- Rust `as f64` cast of a `u64` value: round to the nearest `f64`,
ties to even.  Values up to `2^53` are exactly representable; above
that, the value is rounded to the nearest multiple of the unit in the
last place `2^(e-52)` of its binade `[2^e, 2^(e+1))`. -/
def roundU64toF64 (n : ℕ) : ℕ :=
  if n ≤ 2 ^ 53 then n
  else
    let e := log2fuel 64 n
    let ulp := 2 ^ (e - 52)
    let r := n % ulp
    let down := n - r
    if 2 * r < ulp then down
    else if ulp < 2 * r then down + ulp
    else if (down / ulp) % 2 = 0 then down else down + ulp

/-! ## Rate (src/control/rate/rate.rs)

Fields mirror the Rust struct: `duration` (target ns per tick),
`last_tick` / `first_tick` (instants, as ns), `ticks` (u64 counter) and
`delta_rem` (the i32 lag accumulator, kept in `ℤ` with the i32 clamping
applied exactly where the source applies it). -/

structure Rate where
  duration : ℤ
  last_tick : ℤ
  first_tick : ℤ
  ticks : ℕ
  delta_rem : ℤ
deriving Repr, DecidableEq

/-- `Rate::last_elapsed`: `instant - self.last_tick`. -/
def Rate.last_elapsed (r : Rate) (instant : ℤ) : ℤ := instant - r.last_tick

/-- `Rate::first_elapsed`: `instant - self.first_tick`. -/
def Rate.first_elapsed (r : Rate) (instant : ℤ) : ℤ := instant - r.first_tick

/-- `Rate::do_tick` (rate.rs:309): if `delta + delta_rem >= duration`, the
tick fires — the lag `delta - duration` is clamped to the i32 range and
saturating-added into `delta_rem`, `ticks` is incremented, `last_tick`
becomes `instant` and `Some(delta)` is returned; otherwise nothing
changes and `None` is returned.  The embedding returns the new state
together with the `Option` result. -/
def Rate.do_tick (r : Rate) (instant : ℤ) : Rate × Option ℤ :=
  let delta := r.last_elapsed instant
  if r.duration ≤ delta + r.delta_rem then
    let lag := delta - r.duration
    let lag_clamped := clampI32 lag
    ({ r with delta_rem := satAddI32 r.delta_rem lag_clamped,
              ticks := r.ticks + 1,
              last_tick := instant }, some delta)
  else
    (r, none)

/-- `Rate::do_tick_fast` (rate.rs:352): fires exactly when
`delta >= duration`, ignoring `delta_rem`. -/
def Rate.do_tick_fast (r : Rate) (instant : ℤ) : Rate × Option ℤ :=
  let delta := r.last_elapsed instant
  if r.duration ≤ delta then
    ({ r with ticks := r.ticks + 1, last_tick := instant }, some delta)
  else
    (r, none)

/-- `Rate::reset` (rate.rs:111).  The source takes two separate
`Instant::now()` readings — first for `first_tick`, then for
`last_tick` — so the embedding receives both readings, in order. -/
def Rate.reset (r : Rate) (now1 now2 : ℤ) : Rate :=
  { r with ticks := 0, first_tick := now1, last_tick := now2, delta_rem := 0 }

/-! ## Tick-index projection (rate.rs:399-426)

Instants are the values representable by the platform clock; we model the
representable window as a `timespec` with an `i64` seconds field, matching
the Unix platform the crate targets.  `duration_ticks` computes
`duration * ticks` by a round-trip through `f64` seconds; the embedding
uses the exact real value of that product. -/

/-- Smallest representable instant, in ns (`i64::MIN` seconds). -/
def instantMin : ℤ := -(2 ^ 63) * 1000000000

/-- Largest representable instant, in ns (`i64::MAX` seconds + maximal ns). -/
def instantMax : ℤ := (2 ^ 63 - 1) * 1000000000 + 999999999

/-- `Instant::checked_add`: `some` of the exact sum when it is
representable, `none` on overflow. -/
def checked_add_instant (i d : ℤ) : Option ℤ :=
  if instantMin ≤ i + d ∧ i + d ≤ instantMax then some (i + d) else none

/-- `Rate::duration_ticks`: total duration of `ticks` ticks
(`duration * ticks`, exact value of the source's f64 computation). -/
def Rate.duration_ticks (r : Rate) (ticks : ℕ) : ℤ := r.duration * ticks

/-- `Rate::instant_tick` (rate.rs:413): the mathematical value
`first_tick + duration_ticks(tick)`; the source panics when this value
is not representable (see `Rate.instant_tick_overflows`). -/
def Rate.instant_tick (r : Rate) (tick : ℕ) : ℤ :=
  r.first_tick + r.duration_ticks tick

/-- The overflow condition under which `Rate::instant_tick` panics: the
projected instant falls outside the representable range. -/
def Rate.instant_tick_overflows (r : Rate) (tick : ℕ) : Prop :=
  r.instant_tick tick < instantMin ∨ instantMax < r.instant_tick tick

instance (r : Rate) (tick : ℕ) : Decidable (r.instant_tick_overflows tick) := by
  unfold Rate.instant_tick_overflows; infer_instance

/-- `Rate::instant_tick_checked` (rate.rs:424):
`first_tick.checked_add(duration_ticks(tick))`. -/
def Rate.instant_tick_checked (r : Rate) (tick : ℕ) : Option ℤ :=
  checked_add_instant r.first_tick (r.duration_ticks tick)

/-! ## RateStats (src/rate/stats.rs)

The ring buffer is an `ArrayDeque<[u64; 1024], Wrapping>`: capacity 1024,
`push_back` evicts the oldest (front) element when full.  It is modelled
as a `List ℕ` whose head is the oldest sample.  The three `f64` average
fields are modelled as exact rationals; the `u64` statistics values and
the `u64` sum accumulator are naturals reduced modulo `2^64` where the
source performs `u64` addition. -/

structure RateStats where
  avg_ring : List ℕ
  avg_16 : ℚ
  avg_128 : ℚ
  avg_1024 : ℚ
  max_ns_16 : ℕ
  max_ns_128 : ℕ
  max_ns_1024 : ℕ
deriving Repr, DecidableEq

/-- `RateStats::new` / `Default`: empty ring, all statistics zero. -/
def RateStats.new : RateStats := ⟨[], 0, 0, 0, 0, 0, 0⟩

/-- Wrapping `push_back` of the capacity-1024 `ArrayDeque`: when full,
the front (oldest) element is evicted. -/
def ringPush (l : List ℕ) (x : ℕ) : List ℕ :=
  if l.length < 1024 then l ++ [x] else l.tail ++ [x]

/-- `RateStats::add_ns`: push one nanosecond sample into the ring. -/
def RateStats.add_ns (s : RateStats) (ns : ℕ) : RateStats :=
  { s with avg_ring := ringPush s.avg_ring ns }

/-- One window scan of `RateStats::update` for the 128/1024 branches:
`k` iterations of `let val = i.next_back().unwrap_or(&0);
avg_accumulator += val; max = max(max, val)`.  The iterator state is the
reversed ring (newest sample first); an exhausted iterator yields 0 and
stays exhausted, matching `unwrap_or(&0)`.  The accumulator addition is
`u64` addition, hence reduced modulo `2^64`. -/
def scanW : ℕ → List ℕ → ℕ → ℕ → ℕ × ℕ
  | 0, _, acc, mx => (acc, mx)
  | k + 1, it, acc, mx =>
      scanW k it.tail ((acc + it.headD 0) % U64) (max mx (it.headD 0))

/-- The window scan of the 16-sample branch of `RateStats::update`
(stats.rs:83-87), which calls `next_back()` twice per iteration: `val`
(used for the maximum) is the first element drawn, while the accumulator
adds the *second* element drawn, so each iteration consumes two
positions of the backward iterator. -/
def scan16 : ℕ → List ℕ → ℕ → ℕ → ℕ × ℕ
  | 0, _, acc, mx => (acc, mx)
  | k + 1, it, acc, mx =>
      scan16 k it.tail.tail ((acc + it.tail.headD 0) % U64) (max mx (it.headD 0))

/-- `RateStats::update(tick_count)` (stats.rs:75-115): for each window
size in {16, 128, 1024} whose size divides `tick_count`, rescan the most
recent samples (newest backward) and store `avg_accumulator as f64 / N`
as the average — the `u64` accumulator is cast to `f64` (rounding to
nearest, ties to even: `roundU64toF64`), after which dividing by the
power-of-two window size is exact — and the scanned maximum (starting
from 0) as the maximum.  The 16-sample branch uses the double-consuming
scan the source performs. -/
def RateStats.update (s : RateStats) (tick_count : ℕ) : RateStats :=
  let s1 :=
    if tick_count % 16 = 0 then
      let r := scan16 16 s.avg_ring.reverse 0 0
      { s with avg_16 := (roundU64toF64 r.1 : ℚ) / 16, max_ns_16 := r.2 }
    else s
  let s2 :=
    if tick_count % 128 = 0 then
      let r := scanW 128 s.avg_ring.reverse 0 0
      { s1 with avg_128 := (roundU64toF64 r.1 : ℚ) / 128, max_ns_128 := r.2 }
    else s1
  if tick_count % 1024 = 0 then
    let r := scanW 1024 s.avg_ring.reverse 0 0
    { s2 with avg_1024 := (roundU64toF64 r.1 : ℚ) / 1024, max_ns_1024 := r.2 }
  else s2

/-- `RateStats::reset` (stats.rs:118-125): zero the three averages and
the two larger maxima; `max_ns_16` and the ring are not touched. -/
def RateStats.reset (s : RateStats) : RateStats :=
  { s with avg_16 := 0, avg_128 := 0, avg_1024 := 0,
           max_ns_128 := 0, max_ns_1024 := 0 }

/-- Maximum of a list of naturals (0 for the empty list). -/
def listMax (l : List ℕ) : ℕ := l.foldr max 0

/-! ## Looper (src/looper.rs)

The two hash maps `rates`/`stats` (keyed by the `u128` produced by the
sixbit name encoding) are modelled as functions `ℕ → Option _`.
`Instant::now()` readings are passed in as arguments and the blocking
waits issued by `sleep` are returned as a list of wait durations. -/

/-- The loop state machine status (`LoopStatus` in looper.rs). -/
inductive LoopStatus where
  | Active
  | Asleep
deriving Repr, DecidableEq

/-- `HashMap::insert` on a functional map. -/
def insertKey {α : Type} (k : ℕ) (v : α) (m : ℕ → Option α) : ℕ → Option α :=
  fun q => if q = k then some v else m q

/-- Character class accepted by the external sixbit name encoding
(spec §6): ASCII alphanumerics and underscore. -/
def sixbit_char_ok (c : Char) : Bool := c.isAlphanum || c = '_'

/-- A 6-bit code for one valid character.  The exact table of the
external sixbit collaborator is outside this repository; any fixed
table works for the properties verified here. -/
def sixbit_code (c : Char) : ℕ :=
  if c = '_' then 63
  else if c.isDigit then c.toNat - 48
  else if c.isUpper then c.toNat - 55
  else c.toNat - 61

/-- Models the external sixbit name-encoding collaborator
(`encode_sixbit::<u128>`): encoding succeeds exactly for names of at
most 21 characters drawn from `[A-Za-z0-9_]`, producing a fixed-width
integer key; it fails (`none`) otherwise. -/
def encode_sixbit (name : String) : Option ℕ :=
  if name.data.length ≤ 21 ∧ name.data.all sixbit_char_ok then
    some (name.data.foldl (fun acc c => acc * 64 + sixbit_code c) 0)
  else none

structure Looper where
  status : LoopStatus
  root_rate : Rate
  root_stats : RateStats
  rates : ℕ → Option Rate
  stats : ℕ → Option RateStats

/-- `Looper::default` / `Looper::new`: status `Active`, default root
rate (zero duration; its `first_tick`/`last_tick` are the two clock
readings taken by `Rate::default`), empty tables. -/
def Looper.init (now1 now2 : ℤ) : Looper :=
  ⟨LoopStatus.Active, ⟨0, now2, now1, 0, 0⟩, RateStats.new,
   fun _ => none, fun _ => none⟩

/-- `Looper::measure` (looper.rs:82-101): from `Asleep`, capture `now`,
compute the delta since the root rate's last tick, advance the root
rate's `last_tick` and tick count, feed the delta into the root stats
(`add_ns` then windowed `update` with the new tick count), become
`Active` and return `Some((now, delta))`.  From `Active`, a no-op
returning `None`. -/
def Looper.measure (l : Looper) (now : ℤ) : Looper × Option (ℤ × ℤ) :=
  match l.status with
  | LoopStatus.Asleep =>
      let delta := now - l.root_rate.last_tick
      let rr := { l.root_rate with last_tick := now, ticks := l.root_rate.ticks + 1 }
      let rs := (l.root_stats.add_ns (u64_of_int delta)).update rr.ticks
      ({ l with status := LoopStatus.Active, root_rate := rr, root_stats := rs },
       some (now, delta))
  | LoopStatus.Active => (l, none)

/-- `Looper::sleep` (looper.rs:361-369): from `Active`, become `Asleep`
and perform one blocking wait when the requested duration is strictly
positive; from `Asleep`, a no-op.  The second component lists the
blocking waits performed by the call. -/
def Looper.sleep (l : Looper) (duration : ℤ) : Looper × List ℤ :=
  match l.status with
  | LoopStatus.Active =>
      ({ l with status := LoopStatus.Asleep },
       if 0 < duration then [duration] else [])
  | LoopStatus.Asleep => (l, [])

/-- `Looper::do_tick` (looper.rs:237-262): encode the name, look up the
named rate, delegate to `Rate::do_tick`; on a fired tick, push the
elapsed nanoseconds (`whole_nanoseconds() as u64`) into the matching
stats entry when one exists and call its windowed `update` with the
rate's new tick count. -/
def Looper.do_tick (l : Looper) (now : ℤ) (name : String) : Looper × Option ℤ :=
  match encode_sixbit name with
  | some key =>
      match l.rates key with
      | some rate =>
          match rate.do_tick now with
          | (rate2, some delta) =>
              let l1 := { l with rates := insertKey key rate2 l.rates }
              match l1.stats key with
              | some st =>
                  let st2 := (st.add_ns (u64_of_int delta)).update rate2.ticks
                  ({ l1 with stats := insertKey key st2 l1.stats }, some delta)
              | none => (l1, some delta)
          | (_, none) => (l, none)
      | none => (l, none)
  | none => (l, none)

/-- `Looper::add_rate` (looper.rs:167-173): encode the name (an invalid
name is the error case, `none` here); when `withStats` is set, install a
fresh `RateStats` under the key; insert the rate, returning the
previous rate under that key if any. -/
def Looper.add_rate (l : Looper) (name : String) (rate : Rate)
    (withStats : Bool) : Option (Looper × Option Rate) :=
  match encode_sixbit name with
  | none => none
  | some key =>
      let l1 := if withStats then
          { l with stats := insertKey key RateStats.new l.stats }
        else l
      some ({ l1 with rates := insertKey key rate l1.rates }, l1.rates key)

/-- Example fixture: a rate with duration 25 ns anchored at instant 0. -/
def exRate : Rate := ⟨25, 0, 0, 0, 0⟩

/-- Example fixture: an `Active` looper with `exRate` registered, with
statistics, under key 36 (the encoding of the name "a"). -/
def exLooper : Looper :=
  ⟨LoopStatus.Active, ⟨0, 0, 0, 0, 0⟩, RateStats.new,
   insertKey 36 exRate (fun _ => none),
   insertKey 36 RateStats.new (fun _ => none)⟩

/-! ## Claims C1, C2, C6, C8 -/

/-- Claim C1: `Rate::do_tick(instant)` with `delta = instant - last_tick`
fires exactly when `delta + delta_rem ≥ duration`; when it fires it
saturating-adds the i32-clamped lag `delta - duration` into `delta_rem`,
increments `ticks` by 1, sets `last_tick = instant` and returns
`Some(delta)`; when it does not fire it returns `None` and changes no
field. -/
theorem do_tick_characterization (r : Rate) (instant : ℤ) :
    ((r.do_tick instant).2 = some (instant - r.last_tick) ↔
      r.duration ≤ (instant - r.last_tick) + r.delta_rem) ∧
    (r.duration ≤ (instant - r.last_tick) + r.delta_rem →
      (r.do_tick instant).1 =
        { r with
            delta_rem := satAddI32 r.delta_rem
              (clampI32 ((instant - r.last_tick) - r.duration)),
            ticks := r.ticks + 1,
            last_tick := instant }) ∧
    (¬ r.duration ≤ (instant - r.last_tick) + r.delta_rem →
      r.do_tick instant = (r, none)) := by
  unfold Rate.do_tick Rate.last_elapsed
  constructor
  · constructor
    · intro h
      by_contra hc
      simp [hc] at h
    · intro h
      simp [h]
  · constructor
    · intro h
      simp [h]
    · intro h
      simp [h]

/-- Witness for C1 at a concrete firing input: duration 25, last tick 0,
instant 40 fires and returns the delta 40. -/
theorem do_tick_characterization_witness :
    (Rate.do_tick ⟨25, 0, 0, 0, 0⟩ 40).2 = some ((40 : ℤ) - (0 : ℤ)) :=
  (do_tick_characterization ⟨25, 0, 0, 0, 0⟩ 40).1.mpr (by decide)

/-- Counterexample to C2 as stated: with a zero `duration` a call whose
delta is zero fires for both `do_tick` and `do_tick_fast` (the guard
`0 + 0 ≥ 0` holds), and with duration 3 and accumulated `delta_rem = 10`
a call whose delta is `-5` still fires `do_tick` (`-5 + 10 ≥ 3`). -/
theorem nonpositive_delta_can_fire :
    ((Rate.do_tick ⟨0, 0, 0, 0, 0⟩ 0).2 = some 0 ∧
      (Rate.do_tick ⟨0, 0, 0, 0, 0⟩ 0).1.ticks = 1) ∧
    ((Rate.do_tick_fast ⟨0, 0, 0, 0, 0⟩ 0).2 = some 0 ∧
      (Rate.do_tick_fast ⟨0, 0, 0, 0, 0⟩ 0).1.ticks = 1) ∧
    ((Rate.do_tick ⟨3, 5, 0, 0, 10⟩ 0).2 = some (-5) ∧
      (Rate.do_tick ⟨3, 5, 0, 0, 10⟩ 0).1.ticks = 1) := by
  decide

/-- Claim C2 (amended): for a `Rate` with strictly positive `duration`,
`do_tick_fast` never fires on a non-positive delta, and `do_tick` never
fires on a non-positive delta provided the lag accumulator `delta_rem`
is non-positive as well; in both cases `None` is returned and no field
changes.  (With zero duration, or with enough accumulated positive lag,
a non-positive delta can still fire — see the counterexample.) -/
theorem nonpositive_delta_no_fire (r : Rate) (instant : ℤ)
    (hdur : 0 < r.duration) (hdelta : instant - r.last_tick ≤ 0) :
    r.do_tick_fast instant = (r, none) ∧
    (r.delta_rem ≤ 0 → r.do_tick instant = (r, none)) := by
  constructor
  · unfold Rate.do_tick_fast Rate.last_elapsed
    have h : ¬ r.duration ≤ instant - r.last_tick := by omega
    simp [h]
  · intro hrem
    unfold Rate.do_tick Rate.last_elapsed
    have h : ¬ r.duration ≤ (instant - r.last_tick) + r.delta_rem := by omega
    simp [h]

/-- Witness for the amended C2: duration 7, last tick 5, call at instant 2
(delta `-3`), zero lag: neither variant fires. -/
theorem nonpositive_delta_no_fire_witness :
    Rate.do_tick_fast ⟨7, 5, 0, 0, 0⟩ 2 = (⟨7, 5, 0, 0, 0⟩, none) ∧
    Rate.do_tick ⟨7, 5, 0, 0, 0⟩ 2 = (⟨7, 5, 0, 0, 0⟩, none) := by
  have h := nonpositive_delta_no_fire ⟨7, 5, 0, 0, 0⟩ 2 (by decide) (by decide)
  exact ⟨h.1, h.2 (by decide)⟩

/-- Counterexample to C6 as stated: `Rate::reset` takes two separate
`Instant::now()` readings (rate.rs:113-114); on a run where the clock
advances between them, `first_tick` and `last_tick` differ, so they do
not both equal a single reset-time instant. -/
theorem reset_distinct_samples_cex :
    (Rate.reset ⟨25, 9, 9, 3, 7⟩ 0 1).first_tick ≠
      (Rate.reset ⟨25, 9, 9, 3, 7⟩ 0 1).last_tick ∧
    (Rate.reset ⟨25, 9, 9, 3, 7⟩ 0 1).first_tick = 0 ∧
    (Rate.reset ⟨25, 9, 9, 3, 7⟩ 0 1).last_tick = 1 := by
  decide

/-- Claim C6 (amended): after `reset()`, `ticks = 0`, `delta_rem = 0`,
and `first_tick` / `last_tick` hold the two clock readings taken during
reset, in order; they coincide with a single reset instant exactly when
the clock did not advance between the two readings.  `duration` is
untouched. -/
theorem reset_spec (r : Rate) (now1 now2 : ℤ) :
    (r.reset now1 now2).ticks = 0 ∧
    (r.reset now1 now2).delta_rem = 0 ∧
    (r.reset now1 now2).first_tick = now1 ∧
    (r.reset now1 now2).last_tick = now2 ∧
    (r.reset now1 now2).duration = r.duration ∧
    (now1 = now2 →
      (r.reset now1 now2).first_tick = (r.reset now1 now2).last_tick) := by
  refine ⟨rfl, rfl, rfl, rfl, rfl, ?_⟩
  intro h
  simpa [Rate.reset] using h

/-- Witness for the amended C6 at a concrete input where both clock
readings coincide. -/
theorem reset_spec_witness :
    (Rate.reset ⟨25, 9, 9, 3, 7⟩ 4 4).first_tick =
      (Rate.reset ⟨25, 9, 9, 3, 7⟩ 4 4).last_tick :=
  (reset_spec ⟨25, 9, 9, 3, 7⟩ 4 4).2.2.2.2.2 rfl

/-- Claim C8: both projection variants compute
`first_tick + duration * n`; `instant_tick` panics exactly when that
value leaves the representable instant range, and `instant_tick_checked`
returns `None` in exactly that overflow case and otherwise `Some` of the
very instant `instant_tick` returns. -/
theorem instant_tick_checked_spec (r : Rate) (tick : ℕ) :
    (r.instant_tick_checked tick = none ↔ r.instant_tick_overflows tick) ∧
    (¬ r.instant_tick_overflows tick →
      r.instant_tick_checked tick = some (r.instant_tick tick)) := by
  unfold Rate.instant_tick_checked checked_add_instant
    Rate.instant_tick_overflows Rate.instant_tick
  constructor
  · constructor
    · intro h
      by_contra hc
      rw [not_or, not_lt, not_lt] at hc
      simp [hc.1, hc.2] at h
    · intro h
      rcases h with h | h
      · have : ¬ (instantMin ≤ r.first_tick + r.duration_ticks tick ∧
            r.first_tick + r.duration_ticks tick ≤ instantMax) := by omega
        simp [this]
      · have : ¬ (instantMin ≤ r.first_tick + r.duration_ticks tick ∧
            r.first_tick + r.duration_ticks tick ≤ instantMax) := by omega
        simp [this]
  · intro h
    rw [not_or, not_lt, not_lt] at h
    simp [h.1, h.2]

/-- Witness for C8: a rate with duration 10 anchored at 0 projects tick 3
to instant 30 without overflow. -/
theorem instant_tick_checked_spec_witness :
    Rate.instant_tick_checked ⟨10, 0, 0, 0, 0⟩ 3 =
      some (Rate.instant_tick ⟨10, 0, 0, 0, 0⟩ 3) :=
  (instant_tick_checked_spec ⟨10, 0, 0, 0, 0⟩ 3).2 (by decide)

/-! ## Window-scan lemmas -/

/-- The accumulator of a window scan is the wrapped (`u64`) sum of the
first `k` elements of the iterator. -/
theorem scanW_fst (k : ℕ) (it : List ℕ) (acc mx : ℕ) (h : acc < U64) :
    (scanW k it acc mx).1 = (acc + (it.take k).sum) % U64 := by
  induction k generalizing it acc mx with
  | zero => simp [scanW, Nat.mod_eq_of_lt h]
  | succ k ih =>
      have hU : 0 < U64 := by norm_num [U64]
      cases it with
      | nil =>
          rw [scanW, ih _ _ _ (Nat.mod_lt _ hU)]
          simp [Nat.mod_add_mod]
      | cons a t =>
          rw [scanW, ih _ _ _ (Nat.mod_lt _ hU)]
          simp only [List.headD_cons, List.tail_cons, List.take_succ_cons,
            List.sum_cons, Nat.mod_add_mod]
          rw [Nat.add_assoc]

/-- The maximum of a window scan is the running maximum extended by the
first `k` elements of the iterator. -/
theorem scanW_snd (k : ℕ) (it : List ℕ) (acc mx : ℕ) :
    (scanW k it acc mx).2 = max mx (listMax (it.take k)) := by
  induction k generalizing it acc mx with
  | zero => simp [scanW, listMax]
  | succ k ih =>
      cases it with
      | nil => rw [scanW, ih]; simp [listMax]
      | cons a t =>
          rw [scanW, ih]
          simp only [List.headD_cons, List.tail_cons, List.take_succ_cons,
            listMax, List.foldr_cons]
          rw [max_assoc]

/-- `listMax` distributes over append. -/
theorem listMax_append (l1 l2 : List ℕ) :
    listMax (l1 ++ l2) = max (listMax l1) (listMax l2) := by
  induction l1 with
  | nil => simp [listMax]
  | cons a t ih =>
      simp only [List.cons_append, listMax, List.foldr_cons] at *
      rw [ih, max_assoc]

/-- `listMax` is invariant under reversal. -/
theorem listMax_reverse (l : List ℕ) : listMax l.reverse = listMax l := by
  induction l with
  | nil => rfl
  | cons a t ih =>
      rw [List.reverse_cons, listMax_append, ih]
      simp [listMax, max_comm]

/-- A window scan over the whole (reversed) ring, when the window is at
least as large as the ring, yields the wrapped sum and the maximum of
all the samples. -/
theorem scan_full (l : List ℕ) (k : ℕ) (h : l.length ≤ k) :
    scanW k l.reverse 0 0 = (l.sum % U64, listMax l) := by
  have htake : l.reverse.take k = l.reverse :=
    List.take_of_length_le (by simpa using h)
  have h1 : (scanW k l.reverse 0 0).1 = l.sum % U64 := by
    rw [scanW_fst k l.reverse 0 0 (by norm_num [U64])]
    rw [htake, List.sum_reverse, Nat.zero_add]
  have h2 : (scanW k l.reverse 0 0).2 = listMax l := by
    rw [scanW_snd k l.reverse 0 0, htake, listMax_reverse]
    simp
  exact Prod.ext h1 h2

/-- When 16 divides the tick count, the updated `avg_16` is the
16-branch scan's accumulator divided by 16 (the other branches do not
touch `avg_16`). -/
theorem update_avg16_eq (s : RateStats) (t : ℕ) (h : t % 16 = 0) :
    (s.update t).avg_16 =
      (roundU64toF64 (scan16 16 s.avg_ring.reverse 0 0).1 : ℚ) / 16 := by
  by_cases h128 : t % 128 = 0 <;> by_cases h1024 : t % 1024 = 0 <;>
    simp [RateStats.update, h, h128, h1024]

/-- When 16 divides the tick count, the updated `max_ns_16` is the
16-branch scan's maximum. -/
theorem update_max16_eq (s : RateStats) (t : ℕ) (h : t % 16 = 0) :
    (s.update t).max_ns_16 = (scan16 16 s.avg_ring.reverse 0 0).2 := by
  by_cases h128 : t % 128 = 0 <;> by_cases h1024 : t % 1024 = 0 <;>
    simp [RateStats.update, h, h128, h1024]

/-- When 128 divides the tick count, the updated `avg_128` is the
128-window scan's accumulator divided by 128. -/
theorem update_avg128_eq (s : RateStats) (t : ℕ) (h : t % 128 = 0) :
    (s.update t).avg_128 =
      (roundU64toF64 (scanW 128 s.avg_ring.reverse 0 0).1 : ℚ) / 128 := by
  by_cases h16 : t % 16 = 0 <;> by_cases h1024 : t % 1024 = 0 <;>
    simp [RateStats.update, h, h16, h1024]

/-! ## Claims C3, C7, C10 -/

/-- Claim C3 (code bug): the 16-sample branch of `RateStats::update`
draws *two* elements from the backward iterator per loop iteration
(stats.rs:84-85), so after pushing the samples 1..16 and calling
`update(16)` the code computes `avg_16 = 4` — the sum of the 8 samples
at odd backward offsets divided by 16 — instead of the arithmetic mean
`8.5` the claim (and the matching 128/1024 branches) prescribe; likewise
with samples `0,...,0,100,1` the computed `max_ns_16` is `1`, missing
the true maximum `100` because the maximum only sees every other
sample. -/
theorem update16_mean_bug :
    ((((List.range 16).map Nat.succ).foldl RateStats.add_ns
        RateStats.new).update 16).avg_16 = 4 ∧
    (((((List.range 16).map Nat.succ).foldl RateStats.add_ns
        RateStats.new).avg_ring.sum : ℚ) / 16 = 17 / 2) ∧
    (4 : ℚ) ≠ 17 / 2 ∧
    (((List.replicate 14 0 ++ [100, 1]).foldl RateStats.add_ns
        RateStats.new).update 16).max_ns_16 = 1 ∧
    listMax ((List.replicate 14 0 ++ [100, 1]).foldl RateStats.add_ns
        RateStats.new).avg_ring = 100 := by
  refine ⟨?_, ?_, by norm_num, ?_, by decide⟩
  · rw [update_avg16_eq _ _ (by decide)]
    have hval : (scan16 16 ((((List.range 16).map Nat.succ).foldl
        RateStats.add_ns RateStats.new).avg_ring).reverse 0 0).1 = 64 := by
      decide
    have hround : roundU64toF64 64 = 64 := by decide
    rw [hval, hround]
    norm_num
  · have hsum : (((List.range 16).map Nat.succ).foldl RateStats.add_ns
        RateStats.new).avg_ring.sum = 136 := by decide
    rw [hsum]
    norm_num
  · rw [update_max16_eq _ _ (by decide)]
    decide

/-- Claim C7: `RateStats::reset` zeroes `avg_16`, `avg_128`, `avg_1024`,
`max_ns_128` and `max_ns_1024`, while `max_ns_16` and the sample ring are
left untouched. -/
theorem stats_reset_spec (s : RateStats) :
    s.reset.avg_16 = 0 ∧ s.reset.avg_128 = 0 ∧ s.reset.avg_1024 = 0 ∧
    s.reset.max_ns_128 = 0 ∧ s.reset.max_ns_1024 = 0 ∧
    s.reset.max_ns_16 = s.max_ns_16 ∧ s.reset.avg_ring = s.avg_ring :=
  ⟨rfl, rfl, rfl, rfl, rfl, rfl, rfl⟩

/-- Counterexample to C10 as stated, on two fronts.  The window sum is
accumulated in a `u64`, which wraps: with two samples of `2^63` ns,
`update(128)` stores `avg_128 = 0` (the wrapped sum `2^64 mod 2^64 = 0`
divided by 128), not the claimed `sum / 128 = 2^57`.  And the
accumulator is then cast `as f64`, which rounds: with the single sample
`2^53 + 1`, `update(128)` stores `avg_128 = 2^53 / 128 = 2^46` (the tie
rounds to the even `2^53`), not the claimed `(2^53 + 1) / 128`. -/
theorem update_window_sum_wrap_cex :
    ((RateStats.update ⟨[2 ^ 63, 2 ^ 63], 0, 0, 0, 0, 0, 0⟩ 128).avg_128
        = 0) ∧
    ((([2 ^ 63, 2 ^ 63] : List ℕ).sum : ℚ) / 128 = 2 ^ 57) ∧
    ((0 : ℚ) ≠ 2 ^ 57) ∧
    ((RateStats.update ⟨[2 ^ 53 + 1], 0, 0, 0, 0, 0, 0⟩ 128).avg_128
        = 2 ^ 46) ∧
    ((2 : ℚ) ^ 46 ≠ (2 ^ 53 + 1 : ℚ) / 128) := by
  refine ⟨?_, by norm_num, by norm_num, ?_, by norm_num⟩
  · rw [update_avg128_eq _ _ (by norm_num)]
    have hval : roundU64toF64 (scanW 128
        (RateStats.avg_ring ⟨[2 ^ 63, 2 ^ 63], 0, 0, 0, 0, 0, 0⟩).reverse
        0 0).1 = 0 := by decide
    rw [hval]
    norm_num
  · rw [update_avg128_eq _ _ (by norm_num)]
    have hval : roundU64toF64 (scanW 128
        (RateStats.avg_ring ⟨[2 ^ 53 + 1], 0, 0, 0, 0, 0, 0⟩).reverse
        0 0).1 = 2 ^ 53 := by decide
    rw [hval]
    norm_num

/-- Claim C10 (amended): for a ring holding fewer samples than the
window size `N ∈ {128, 1024}`, an `update` whose tick count is divisible
by `N` treats each missing sample as zero: `avg_N` is the sum of the
present samples — reduced modulo `2^64`, since the accumulator is a
`u64` and wraps, then rounded to the nearest `f64` (ties to even) by
the `as f64` cast; both steps are the identity whenever the sum is at
most `2^53` — divided by `N` (not by the number present), and
`max_ns_N` is the maximum over the present samples alone. -/
theorem update_partial_window_spec (s : RateStats) (t : ℕ) :
    (s.avg_ring.length < 128 → t % 128 = 0 →
      (s.update t).avg_128 =
        (roundU64toF64 (s.avg_ring.sum % U64) : ℚ) / 128 ∧
      (s.update t).max_ns_128 = listMax s.avg_ring) ∧
    (s.avg_ring.length < 1024 → t % 1024 = 0 →
      (s.update t).avg_1024 =
        (roundU64toF64 (s.avg_ring.sum % U64) : ℚ) / 1024 ∧
      (s.update t).max_ns_1024 = listMax s.avg_ring) := by
  have h128full := scan_full s.avg_ring 128
  have h1024full := scan_full s.avg_ring 1024
  constructor
  · intro hlen ht
    have hscan := h128full (le_of_lt hlen)
    by_cases h16 : t % 16 = 0 <;> by_cases h1024 : t % 1024 = 0 <;>
      simp [RateStats.update, ht, h16, h1024, hscan]
  · intro hlen ht
    have hscan := h1024full (le_of_lt hlen)
    by_cases h16 : t % 16 = 0 <;> by_cases h128 : t % 128 = 0 <;>
      simp [RateStats.update, ht, h16, h128, hscan]

/-- Witness for the amended C10: a ring with the two samples 5 and 10
updated at tick count 1024 (divisible by both 128 and 1024) yields
`avg_128 = 15/128` and `max_ns_1024 = 10`. -/
theorem update_partial_window_spec_witness :
    (RateStats.update ⟨[5, 10], 0, 0, 0, 0, 0, 0⟩ 1024).avg_128
        = (15 : ℚ) / 128 ∧
    (RateStats.update ⟨[5, 10], 0, 0, 0, 0, 0, 0⟩ 1024).max_ns_1024 = 10 := by
  have h := update_partial_window_spec ⟨[5, 10], 0, 0, 0, 0, 0, 0⟩ 1024
  have h128 := h.1 (by norm_num) (by norm_num)
  have h1024 := h.2 (by norm_num) (by norm_num)
  constructor
  · rw [h128.1]
    have hround : roundU64toF64
        ((RateStats.avg_ring ⟨[5, 10], 0, 0, 0, 0, 0, 0⟩).sum % U64) = 15 := by
      decide
    rw [hround]
    norm_num
  · rw [h1024.2]; decide

/-! ## Looper lemmas and claims C4, C5, C9 -/

/-- A fired `Rate::do_tick` returns exactly the elapsed duration since
the previous tick. -/
theorem do_tick_some_delta (r : Rate) (instant delta : ℤ)
    (h : (r.do_tick instant).2 = some delta) :
    delta = instant - r.last_tick := by
  unfold Rate.do_tick Rate.last_elapsed at h
  by_cases hc : r.duration ≤ (instant - r.last_tick) + r.delta_rem
  · simp [hc] at h
    exact h.symm
  · simp [hc] at h

/-- Claim C4: the loop state machine starts `Active`; `measure()` while
`Active` returns `None` and changes nothing; `sleep(d)` while `Active`
transitions to `Asleep`, performing exactly one blocking wait exactly
when `d` is strictly positive; `sleep` while `Asleep` is a no-op with no
wait (so a second consecutive `sleep` never waits); `measure(now)` while
`Asleep` returns `Some((now, delta))`, sets the root rate's `last_tick`
to `now`, increments the root tick count exactly once and becomes
`Active` again — `measure` and `sleep` strictly alternate. -/
theorem looper_alternation (l : Looper) (now d d2 : ℤ) :
    (Looper.init now now).status = LoopStatus.Active ∧
    (l.status = LoopStatus.Active → l.measure now = (l, none)) ∧
    (l.status = LoopStatus.Active →
      (l.sleep d).1.status = LoopStatus.Asleep ∧
      (l.sleep d).2 = if 0 < d then [d] else []) ∧
    (l.status = LoopStatus.Asleep → l.sleep d = (l, [])) ∧
    (l.status = LoopStatus.Active → ((l.sleep d).1.sleep d2).2 = []) ∧
    (l.status = LoopStatus.Asleep →
      (l.measure now).2 = some (now, now - l.root_rate.last_tick) ∧
      (l.measure now).1.root_rate.last_tick = now ∧
      (l.measure now).1.root_rate.ticks = l.root_rate.ticks + 1 ∧
      (l.measure now).1.status = LoopStatus.Active) := by
  refine ⟨rfl, ?_, ?_, ?_, ?_, ?_⟩
  · intro h
    simp [Looper.measure, h]
  · intro h
    simp [Looper.sleep, h]
  · intro h
    simp [Looper.sleep, h]
  · intro h
    simp [Looper.sleep, h]
  · intro h
    simp [Looper.measure, h]

/-- Witness for C4: the fresh looper refuses to measure; its first sleep
waits once for the requested 5 ns; an asleep looper's measure at
instant 7 reports delta 4 from its root last tick 3. -/
theorem looper_alternation_witness :
    ((Looper.init 0 0).measure 7 = (Looper.init 0 0, none)) ∧
    (((Looper.init 0 0).sleep 5).2 = [5]) ∧
    ((⟨LoopStatus.Asleep, ⟨25, 3, 0, 2, 0⟩, RateStats.new,
        fun _ => none, fun _ => none⟩ : Looper).measure 7).2 = some (7, 4) := by
  have h1 := looper_alternation (Looper.init 0 0) 7 5 5
  have h2 := looper_alternation (⟨LoopStatus.Asleep, ⟨25, 3, 0, 2, 0⟩,
    RateStats.new, fun _ => none, fun _ => none⟩ : Looper) 7 5 5
  refine ⟨h1.2.1 rfl, ?_, ?_⟩
  · have := (h1.2.2.1 rfl).2
    simpa using this
  · have := (h2.2.2.2.2.2 rfl).1
    simpa using this

/-- Claim C5: `Looper::do_tick(now, name)` returns `None` in exactly
three cases — the name fails the sixbit encoding, the encoded key is
absent from the rate table, or the named rate's `do_tick` does not
fire — and otherwise returns `Some(delta)` with `delta` the fired
tick's elapsed duration, storing the advanced rate back under the key
and, when a stats entry was allocated for the key, pushing the elapsed
nanoseconds into it and calling its windowed `update` with the rate's
new tick count. -/
theorem looper_do_tick_cases (l : Looper) (now : ℤ) (name : String) :
    (encode_sixbit name = none → l.do_tick now name = (l, none)) ∧
    (∀ key, encode_sixbit name = some key → l.rates key = none →
      l.do_tick now name = (l, none)) ∧
    (∀ key rate, encode_sixbit name = some key → l.rates key = some rate →
      (((rate.do_tick now).2 = none → (l.do_tick now name).2 = none) ∧
       (∀ delta, (rate.do_tick now).2 = some delta →
         delta = now - rate.last_tick ∧
         (l.do_tick now name).2 = some delta ∧
         (l.do_tick now name).1.rates key = some (rate.do_tick now).1 ∧
         (l.stats key = none →
           (l.do_tick now name).1.stats key = none) ∧
         (∀ st, l.stats key = some st →
           (l.do_tick now name).1.stats key =
             some ((st.add_ns (u64_of_int delta)).update
               (rate.do_tick now).1.ticks))))) := by
  refine ⟨?_, ?_, ?_⟩
  · intro h
    simp [Looper.do_tick, h]
  · intro key hk hr
    simp [Looper.do_tick, hk, hr]
  · intro key rate hk hr
    cases hdo : rate.do_tick now with
    | mk rate2 o =>
        cases o with
        | none =>
            refine ⟨fun _ => ?_, fun delta hd => ?_⟩
            · simp [Looper.do_tick, hk, hr, hdo]
            · simp at hd
        | some delta0 =>
            refine ⟨fun hc => ?_, fun delta hd => ?_⟩
            · simp at hc
            · simp at hd
              subst hd
              have hdelta : delta0 = now - rate.last_tick :=
                do_tick_some_delta rate now delta0 (by rw [hdo])
              refine ⟨hdelta, ?_⟩
              cases hst : l.stats key with
              | none =>
                  simp [Looper.do_tick, hk, hr, hdo, hst, insertKey]
              | some st =>
                  simp [Looper.do_tick, hk, hr, hdo, hst, insertKey]

/-- Witness for C5: on the fixture looper, ticking the registered name
"a" at instant 40 fires with delta 40 and the stats entry under key 36
receives the pushed sample and the windowed update at tick count 1. -/
theorem looper_do_tick_cases_witness :
    (exLooper.do_tick 40 "a").2 = some 40 ∧
    (exLooper.do_tick 40 "a").1.stats 36 =
      some ((RateStats.new.add_ns (u64_of_int 40)).update
        (exRate.do_tick 40).1.ticks) := by
  have h := looper_do_tick_cases exLooper 40 "a"
  have henc : encode_sixbit "a" = some 36 := by decide
  have hrate : exLooper.rates 36 = some exRate := by decide
  have hfire : (exRate.do_tick 40).2 = some 40 := by decide
  have hmain := (h.2.2 36 exRate henc hrate).2 40 hfire
  exact ⟨hmain.2.1, hmain.2.2.2.2 RateStats.new (by decide)⟩

/-- Claim C9: for a valid name, `add_rate(name, rate, false)` replaces
the rate under the encoded key while leaving the stats entry for that
key untouched, and `add_rate(name, rate, true)` additionally discards
any previous stats entry in favour of a fresh empty one; both return
the previously registered rate. -/
theorem add_rate_stats_preservation (l : Looper) (name : String)
    (rate : Rate) (key : ℕ) (henc : encode_sixbit name = some key) :
    ((l.add_rate name rate false).map (fun p => p.1.stats key) =
      some (l.stats key)) ∧
    ((l.add_rate name rate false).map (fun p => p.1.rates key) =
      some (some rate)) ∧
    ((l.add_rate name rate false).map (fun p => p.2) =
      some (l.rates key)) ∧
    ((l.add_rate name rate true).map (fun p => p.1.stats key) =
      some (some RateStats.new)) ∧
    ((l.add_rate name rate true).map (fun p => p.1.rates key) =
      some (some rate)) ∧
    ((l.add_rate name rate true).map (fun p => p.2) =
      some (l.rates key)) := by
  refine ⟨?_, ?_, ?_, ?_, ?_, ?_⟩ <;>
    simp [Looper.add_rate, henc, insertKey]

/-- Witness for C9: replacing the fixture's registered rate under "a"
without stats keeps the existing stats entry and returns the previous
rate; with stats, a fresh entry is installed. -/
theorem add_rate_stats_preservation_witness :
    ((exLooper.add_rate "a" ⟨50, 0, 0, 0, 0⟩ false).map
      (fun p => p.1.stats 36) = some (some RateStats.new)) ∧
    ((exLooper.add_rate "a" ⟨50, 0, 0, 0, 0⟩ false).map
      (fun p => p.2) = some (some exRate)) ∧
    ((exLooper.add_rate "a" ⟨50, 0, 0, 0, 0⟩ true).map
      (fun p => p.1.stats 36) = some (some RateStats.new)) := by
  have h := add_rate_stats_preservation exLooper "a" ⟨50, 0, 0, 0, 0⟩ 36
    (by decide)
  have hst : exLooper.stats 36 = some RateStats.new := by decide
  have hrt : exLooper.rates 36 = some exRate := by decide
  refine ⟨?_, ?_, h.2.2.2.1⟩
  · rw [h.1, hst]
  · rw [h.2.2.1, hrt]

end Espera
